import Mathlib

/- Shallow embedding of the WritingCoachAI core, translated from the
   repository sources:
   - the Gemini response processing (gemini-api.js, GeminiAPI._processResponse),
     including the JavaScript JSON.parse semantics (modelled as a fuel-based
     recursive-descent JSON parser) and the first-brace-to-last-brace span
     extraction performed by the regex match,
   - the bounded conversation history (GeminiAPI.addToHistory),
   - the scenario context table (GeminiAPI._createContext),
   - the analytics session store (SpeechAnalytics.updateMetrics,
     updateAnalysis, _saveSession, _loadHistoryFromStorage),
   - the app-level analysis concurrency behaviour (app.js respondToMessage
     and analyzeWithGemini with the pendingAnalysis flag), as a step relation.
-/

/-- JSON values as produced by JSON.parse. Numbers are kept exactly as
mantissa times ten to the exp10 power, so that integer scores such as 8
are represented without floating point. -/
inductive Json : Type where
  | null : Json
  | bool (b : Bool) : Json
  | num (mantissa exp10 : Int) : Json
  | str (s : String) : Json
  | arr (elems : List Json) : Json
  | obj (fields : List (String × Json)) : Json

/-- The opening brace character, written by code point to keep string
literals free of literal braces. -/
def lbrace : Char := Char.ofNat 123

/-- The closing brace character. -/
def rbrace : Char := Char.ofNat 125

/-- JSON insignificant whitespace: space, tab, line feed, carriage return. -/
def isJsonWs (c : Char) : Bool := c = ' ' || c = '\t' || c = '\n' || c = '\r'

/-- Skip leading JSON whitespace. -/
def skipWs (s : List Char) : List Char := s.dropWhile isJsonWs

/-- Single-character JSON string escapes. -/
def unescape (c : Char) : Option Char :=
  if c = '"' then some '"'
  else if c = '\\' then some '\\'
  else if c = '/' then some '/'
  else if c = 'b' then some (Char.ofNat 8)
  else if c = 'f' then some (Char.ofNat 12)
  else if c = 'n' then some '\n'
  else if c = 'r' then some '\r'
  else if c = 't' then some '\t'
  else none

/-- Value of one hexadecimal digit. -/
def hexVal (c : Char) : Option Nat :=
  if '0' ≤ c ∧ c ≤ '9' then some (c.toNat - 48)
  else if 'a' ≤ c ∧ c ≤ 'f' then some (c.toNat - 87)
  else if 'A' ≤ c ∧ c ≤ 'F' then some (c.toNat - 55)
  else none

/-- Parse the body of a JSON string literal (after the opening quote),
returning the decoded characters and the rest of the input. Unescaped
control characters are rejected, as JSON.parse rejects them. -/
def parseStrAux : List Char → Option (List Char × List Char)
  | [] => none
  | c :: rest =>
    if c = '"' then some ([], rest)
    else if c = '\\' then
      match rest with
      | [] => none
      | e :: rest2 =>
        if e = 'u' then
          match rest2 with
          | h1 :: h2 :: h3 :: h4 :: rest3 =>
            match hexVal h1, hexVal h2, hexVal h3, hexVal h4 with
            | some a, some b, some c2, some d =>
              (parseStrAux rest3).map fun p =>
                (Char.ofNat (((a * 16 + b) * 16 + c2) * 16 + d) :: p.1, p.2)
            | _, _, _, _ => none
          | _ => none
        else
          match unescape e with
          | some ch => (parseStrAux rest2).map fun p => (ch :: p.1, p.2)
          | none => none
    else if c.toNat < 32 then none
    else (parseStrAux rest).map fun p => (c :: p.1, p.2)

/-- Numeric value of a digit string. -/
def digitsVal (ds : List Char) : Nat := ds.foldl (fun n c => n * 10 + (c.toNat - 48)) 0

/-- Parse an optional JSON exponent part, returning the signed exponent. -/
def parseExponent (s : List Char) : Option (Int × List Char) :=
  match s with
  | c :: rest =>
    if c = 'e' || c = 'E' then
      let sr : Int × List Char :=
        match rest with
        | '+' :: r => (1, r)
        | '-' :: r => (-1, r)
        | _ => (1, rest)
      let eds := sr.2.takeWhile Char.isDigit
      if eds.isEmpty then none
      else some (sr.1 * (digitsVal eds : Int), sr.2.dropWhile Char.isDigit)
    else some (0, s)
  | [] => some (0, s)

/-- Parse an optional JSON fraction part, returning its digits. -/
def parseFrac (s : List Char) : Option (List Char × List Char) :=
  match s with
  | '.' :: rest =>
    let fds := rest.takeWhile Char.isDigit
    if fds.isEmpty then none else some (fds, rest.dropWhile Char.isDigit)
  | _ => some ([], s)

/-- Parse a JSON number (optional minus, integer part without leading
zeros, optional fraction, optional exponent). -/
def parseNumber (s : List Char) : Option (Json × List Char) :=
  let ns : Bool × List Char := match s with | '-' :: r => (true, r) | _ => (false, s)
  let ds := ns.2.takeWhile Char.isDigit
  let s2 := ns.2.dropWhile Char.isDigit
  if ds.isEmpty then none
  else if ds.length > 1 ∧ ds.headD '1' = '0' then none
  else
    match parseFrac s2 with
    | none => none
    | some (fds, s3) =>
      match parseExponent s3 with
      | none => none
      | some (ex, s4) =>
        let m : Int := (digitsVal (ds ++ fds) : Int)
        some (Json.num (if ns.1 then -m else m) (ex - fds.length), s4)

mutual

/-- Parse one JSON value. Fuel bounds the recursion depth; jsonParse below
supplies enough fuel for any input. -/
def parseValue : Nat → List Char → Option (Json × List Char)
  | 0, _ => none
  | fuel + 1, s =>
    match skipWs s with
    | [] => none
    | c :: rest =>
      if c = '"' then
        (parseStrAux rest).map fun p => (Json.str (String.mk p.1), p.2)
      else if c = lbrace then
        match skipWs rest with
        | [] => none
        | d :: rest2 =>
          if d = rbrace then some (Json.obj [], rest2)
          else (parseMembers fuel (d :: rest2)).map fun p => (Json.obj p.1, p.2)
      else if c = '[' then
        match skipWs rest with
        | [] => none
        | d :: rest2 =>
          if d = ']' then some (Json.arr [], rest2)
          else (parseElems fuel (d :: rest2)).map fun p => (Json.arr p.1, p.2)
      else if c = 't' then
        match rest with
        | 'r' :: 'u' :: 'e' :: r => some (Json.bool true, r)
        | _ => none
      else if c = 'f' then
        match rest with
        | 'a' :: 'l' :: 's' :: 'e' :: r => some (Json.bool false, r)
        | _ => none
      else if c = 'n' then
        match rest with
        | 'u' :: 'l' :: 'l' :: r => some (Json.null, r)
        | _ => none
      else parseNumber (c :: rest)

/-- Parse the members of a JSON object after its opening brace
(at least one member; the empty object is handled by parseValue). -/
def parseMembers : Nat → List Char → Option (List (String × Json) × List Char)
  | 0, _ => none
  | fuel + 1, s =>
    match skipWs s with
    | '"' :: rest =>
      match parseStrAux rest with
      | none => none
      | some (key, r1) =>
        match skipWs r1 with
        | ':' :: r2 =>
          match parseValue fuel r2 with
          | none => none
          | some (v, r3) =>
            match skipWs r3 with
            | ',' :: r4 => (parseMembers fuel r4).map fun p => ((String.mk key, v) :: p.1, p.2)
            | d :: r4 => if d = rbrace then some ([(String.mk key, v)], r4) else none
            | [] => none
        | _ => none
    | _ => none

/-- Parse the elements of a JSON array after its opening bracket
(at least one element; the empty array is handled by parseValue). -/
def parseElems : Nat → List Char → Option (List Json × List Char)
  | 0, _ => none
  | fuel + 1, s =>
    match parseValue fuel s with
    | none => none
    | some (v, r1) =>
      match skipWs r1 with
      | ',' :: r2 => (parseElems fuel r2).map fun p => (v :: p.1, p.2)
      | d :: r2 => if d = ']' then some ([v], r2) else none
      | [] => none

end

/-- JSON.parse: parse one value surrounded only by whitespace.
The fuel is generous: every recursive descent consumes input. -/
def jsonParse (s : List Char) : Option Json :=
  match parseValue (4 * s.length + 4) s with
  | some (v, r) => if skipWs r = [] then some v else none
  | none => none

/-- The span matched by the regex that looks for a brace-delimited region:
from the first opening brace through the last closing brace that follows
it; none when no such span exists. -/
def extractJsonSpan (s : List Char) : Option (List Char) :=
  match s.dropWhile (fun c => !(c = lbrace)) with
  | [] => none
  | t =>
    match t.reverse.dropWhile (fun c => !(c = rbrace)) with
    | [] => none
    | r => some r.reverse

/-- JavaScript property read on a parsed JSON value: on an object the last
binding of the key wins (later duplicate keys overwrite earlier ones);
absent key or non-object gives none (undefined). -/
def Json.getField : Json → String → Option Json
  | Json.obj fields, key => fields.foldl (fun acc p => if p.1 = key then some p.2 else acc) none
  | _, _ => none

/-- Truthiness of a JSON number under JavaScript float64 semantics: a
number is falsy exactly when JSON.parse converts it to (positive or
negative) zero. The exact decimal, mantissa times ten to the exp10, is
converted to the nearest float64 with ties to even, which gives zero
exactly when its magnitude is at most two to the -1075 (half the
smallest subnormal): equivalently, when ten to the -exp10 is at least
the absolute mantissa times two to the 1075. Tiny decimals such as
1e-400 therefore underflow to zero and are falsy, while anything of
magnitude above the threshold (including overflow to infinity) is
truthy. -/
def jsNumberTruthy (m e : Int) : Bool :=
  if m = 0 then false
  else if 0 ≤ e then true
  else decide (10 ^ (-e).toNat < m.natAbs * 2 ^ 1075)

/-- JavaScript truthiness of a possibly-absent value: undefined, null,
false, numbers converting to float64 zero and the empty string are
falsy; every array and object is truthy. -/
def jsTruthy : Option Json → Bool
  | none => false
  | some Json.null => false
  | some (Json.bool b) => b
  | some (Json.num m e) => jsNumberTruthy m e
  | some (Json.str s) => !(s = "")
  | some (Json.arr _) => true
  | some (Json.obj _) => true

/-- The required-fields validation performed by _processResponse:
overallScore, strengths and improvements must all be truthy. -/
def requiredFieldsTruthy (analysis : Json) : Bool :=
  jsTruthy (analysis.getField "overallScore") &&
  jsTruthy (analysis.getField "strengths") &&
  jsTruthy (analysis.getField "improvements")

/-- The fixed fallback analysis object built by _processResponse when the
response text cannot be parsed or validated. It carries no corrections
field. -/
def fallbackAnalysis : Json :=
  Json.obj [
    ("overallScore", Json.num 7 0),
    ("strengths", Json.arr [Json.str "Clear communication detected"]),
    ("improvements", Json.arr [Json.str "Consider structuring responses in a more organized way"]),
    ("toneFeedback", Json.str "Professional and engaged"),
    ("suggestion", Json.str "Practice with more specific examples")]

/-- GeminiAPI._processResponse over the extracted response text. An empty
(falsy) text throws, which the outer catch rethrows; otherwise the
brace span is extracted and decoded, the decoded object is returned when
validation passes, and every other path returns the fallback object (the
inner parse and validation errors are caught and fall through). -/
def processResponse (textContent : String) : Except String Json :=
  if textContent = "" then Except.error "Invalid API response format"
  else
    match extractJsonSpan textContent.data with
    | some span =>
      match jsonParse span with
      | some analysis =>
        if requiredFieldsTruthy analysis then Except.ok analysis
        else Except.ok fallbackAnalysis
      | none => Except.ok fallbackAnalysis
    | none => Except.ok fallbackAnalysis

/-- One entry of the GeminiAPI conversation history. -/
structure HistoryEntry where
  role : String
  content : String
deriving DecidableEq

/-- GeminiAPI.addToHistory: push the entry, then when the length exceeds
10 keep only the last 10 entries (slice(-10)). -/
def addToHistory (h : List HistoryEntry) (e : HistoryEntry) : List HistoryEntry :=
  let h2 := h ++ [e]
  if h2.length > 10 then h2.drop (h2.length - 10) else h2

/-- The scenario-to-context table of GeminiAPI._createContext. -/
def scenarioContexts : List (String × String) := [
  ("interview", "You are in a job interview setting. Provide professional and concise responses."),
  ("social", "You are in a casual social conversation. Keep responses friendly and engaging."),
  ("public", "You are giving a public speech or presentation. Focus on clarity, structure, and engagement."),
  ("general", "You are practicing general speaking skills. Focus on clear communication.")]

/-- The result of the JavaScript property read on the contexts object
literal: one of its own string entries, or a truthy non-string value
(a function, or for the key named underscore-underscore-proto the
prototype object itself) inherited from Object.prototype. -/
inductive ContextLookup : Type where
  | text (s : String) : ContextLookup
  | inheritedProp (key : String) : ContextLookup
deriving DecidableEq

/-- The string-keyed properties every plain object literal inherits from
Object.prototype; reading any of them on the contexts literal yields a
truthy non-string value. -/
def objectProtoKeys : List String :=
  ["constructor", "hasOwnProperty", "isPrototypeOf", "propertyIsEnumerable",
   "toLocaleString", "toString", "valueOf", "__proto__",
   "__defineGetter__", "__defineSetter__", "__lookupGetter__", "__lookupSetter__"]

/-- GeminiAPI._createContext: read contexts[scenario] — an own entry if
the scenario is one of the four keys, else a truthy inherited value if
the scenario names an Object.prototype property, else undefined — and
fall back, via the or-operator, to the general entry exactly when the
read is falsy (every own table value is a non-empty, hence truthy,
string, and every inherited value is truthy). -/
def createContext (scenario : String) : ContextLookup :=
  match scenarioContexts.find? (fun p => p.1 == scenario) with
  | some p => ContextLookup.text p.2
  | none =>
    if scenario ∈ objectProtoKeys then ContextLookup.inheritedProp scenario
    else ContextLookup.text
      (((scenarioContexts.find? (fun p => p.1 == "general")).map (fun p => p.2)).getD "")

/-- The speech metrics object as far as the persisted session store reads
it: the store logic inspects only the duration field; the remaining
metrics fields feed display code that is outside this model. -/
structure Metrics where
  duration : Int
deriving DecidableEq

/-- One stored session object as built by SpeechAnalytics._saveSession.
The id and the date both come from the wall clock at save time; the date
is modelled by the same timestamp rather than its ISO rendering. -/
structure StoredSession where
  id : Nat
  date : Nat
  duration : Int
  transcript : String
  metrics : Option Metrics
  analysis : Option Json

/-- The data _saveSession reads from this.currentSession together with the
wall-clock timestamp of the save. -/
structure SessionInput where
  now : Nat
  transcript : String
  metrics : Option Metrics
  analysis : Option Json

/-- JavaScript String.prototype.trim: strip whitespace from both ends
(written structurally so that it evaluates inside proofs). -/
def jsTrim (s : String) : String :=
  String.mk (((s.data.dropWhile Char.isWhitespace).reverse.dropWhile Char.isWhitespace).reverse)

/-- Is the pending transcript blank (missing, empty or whitespace-only)?
This is the only condition _saveSession checks before storing. -/
def blankTranscript (i : SessionInput) : Bool := jsTrim i.transcript == ""

/-- The session record _saveSession builds: duration defaults to 0 when
the metrics object carries none. -/
def mkStored (i : SessionInput) : StoredSession :=
  { id := i.now, date := i.now,
    duration := match i.metrics with | some m => m.duration | none => 0,
    transcript := i.transcript, metrics := i.metrics, analysis := i.analysis }

/-- SpeechAnalytics._saveSession acting on the history list: skip blank
transcripts, otherwise prepend the new record and truncate to 20 when the
length exceeds 20 (slice(0, 20)). -/
def recordSession (h : List StoredSession) (i : SessionInput) : List StoredSession :=
  if blankTranscript i then h
  else
    let h2 := mkStored i :: h
    if h2.length > 20 then h2.take 20 else h2

/-- The mutable state of the SpeechAnalytics instance relevant to the
session store: the history and the current session buffer. -/
structure AnalyticsState where
  history : List StoredSession
  curTranscript : String
  curMetrics : Option Metrics
  curAnalysis : Option Json

/-- _saveSession on the full analytics state. -/
def saveSession (now : Nat) (st : AnalyticsState) : AnalyticsState :=
  let pending : SessionInput :=
    { now := now, transcript := st.curTranscript,
      metrics := st.curMetrics, analysis := st.curAnalysis }
  { st with history := recordSession st.history pending }

/-- SpeechAnalytics.updateAnalysis: its first statement reads
analysis.toneFeedback, which throws a TypeError when the analysis is
null (or undefined, not representable as a parsed JSON value), so in
that case nothing is stored and the error propagates to the caller.
For every other analysis value the property reads succeed (the tone
chart and suggestions panel they feed are display-only), the analysis is
stored into the current session and _saveSession runs unconditionally. -/
def updateAnalysis (st : AnalyticsState) (a : Json) (now : Nat) : Except String AnalyticsState :=
  match a with
  | Json.null => Except.error "TypeError: cannot read properties of null"
  | _ => Except.ok (saveSession now { st with curAnalysis := some a })

/-- SpeechAnalytics._loadHistoryFromStorage together with the constructor
initialisation: the history starts empty; an absent blob, an empty (falsy)
blob, or a blob JSON.parse rejects (the thrown error is caught) leaves the
empty history; otherwise the parsed value is assigned as the history. -/
def loadHistoryFromStorage (blob : Option String) : Json :=
  match blob with
  | none => Json.arr []
  | some s =>
    if s = "" then Json.arr []
    else
      match jsonParse s.data with
      | some v => v
      | none => Json.arr []

/-- The application state of app.js that governs analysis requests:
the pendingAnalysis flag, the number of speech-path analysis requests
awaiting a response (analyzeWithGemini) and the number of typed-message
analysis requests awaiting a response (respondToMessage). -/
structure AppState where
  pendingAnalysis : Bool
  speechInFlight : Nat
  textInFlight : Nat
deriving DecidableEq

/-- One scheduler step of the app: the analytics callback firing a speech
analysis (guarded by isFinal, duration > 10 and the pendingAnalysis flag,
with analyzeWithGemini requiring a non-blank transcript and setting the
flag before awaiting), a speech analysis settling (success or error, both
clearing the flag), a typed message triggering respondToMessage (no guard
whatsoever), and a typed-message analysis settling. -/
inductive AppStep : AppState → AppState → Prop where
  | speechFinalAnalyze (s : AppState) (duration : Int) (transcript : String) :
      s.pendingAnalysis = false → 10 < duration → jsTrim transcript ≠ "" →
      AppStep s { s with pendingAnalysis := true, speechInFlight := s.speechInFlight + 1 }
  | speechAnalysisSettles (s : AppState) :
      0 < s.speechInFlight →
      AppStep s { s with pendingAnalysis := false, speechInFlight := s.speechInFlight - 1 }
  | textMessageAnalyze (s : AppState) (message : String) :
      jsTrim message ≠ "" →
      AppStep s { s with textInFlight := s.textInFlight + 1 }
  | textAnalysisSettles (s : AppState) :
      0 < s.textInFlight →
      AppStep s { s with textInFlight := s.textInFlight - 1 }

/-- The states the app can reach from its initial state (no flag set, no
request outstanding). -/
inductive AppReachable : AppState → Prop where
  | init : AppReachable ⟨false, 0, 0⟩
  | step {s s2 : AppState} : AppReachable s → AppStep s s2 → AppReachable s2

/- Theorems. -/

/-- C1: for the input string with a prefixed and suffixed JSON object
carrying overallScore 8 and improvements ["x"], the claim says the parser
returns that object. The span does decode to exactly that object, yet the
code returns the fallback (overallScore 7): the validation demands a
strengths field that the code's own requested response format does not
contain, so every response following the requested format is rejected. -/
theorem c1_strengths_check_bug :
    jsonParse "\x7b\"overallScore\":8,\"improvements\":[\"x\"]\x7d".data
      = some (Json.obj [("overallScore", Json.num 8 0),
          ("improvements", Json.arr [Json.str "x"])]) ∧
    processResponse "prefix \x7b\"overallScore\":8,\"improvements\":[\"x\"]\x7d suffix"
      = Except.ok fallbackAnalysis ∧
    Json.getField fallbackAnalysis "overallScore" = some (Json.num 7 0) :=
  ⟨rfl, rfl, rfl⟩

/-- C3 counterexample: on the empty input text the parse operation does
not return a value; it throws (the outer catch rethrows the error), so
the claim fails at the empty string. -/
theorem c3_counterexample :
    processResponse "" = Except.error "Invalid API response format" := rfl

/-- C3 amended: for every non-empty input text the parse operation
returns a value (a decoded result or the fallback object) and never
raises to its caller; the empty text is the sole raising input. -/
theorem c3_amended : ∀ text : String, text ≠ "" →
    ∃ v, processResponse text = Except.ok v := by
  intro text h
  cases hE : extractJsonSpan text.data with
  | none => exact ⟨fallbackAnalysis, by simp only [processResponse, if_neg h, hE]⟩
  | some span =>
    cases hP : jsonParse span with
    | none => exact ⟨fallbackAnalysis, by simp only [processResponse, if_neg h, hE, hP]⟩
    | some a =>
      by_cases hV : requiredFieldsTruthy a = true
      · exact ⟨a, by simp only [processResponse, if_neg h, hE, hP, if_pos hV]⟩
      · exact ⟨fallbackAnalysis, by simp only [processResponse, if_neg h, hE, hP, if_neg hV]⟩

/-- C3 witness: the amended theorem applied at the concrete text "hello". -/
theorem c3_witness : ∃ v, processResponse "hello" = Except.ok v :=
  c3_amended "hello" (by decide)

/-- C4 counterexample: on a spanless input the parser does return the
fallback object, but the fallback carries no corrections field at all
rather than an empty corrections sequence, so the claim as stated fails. -/
theorem c4_counterexample :
    processResponse "no json here" = Except.ok fallbackAnalysis ∧
    Json.getField fallbackAnalysis "corrections" = none ∧
    Json.getField fallbackAnalysis "corrections" ≠ some (Json.arr []) :=
  ⟨rfl, rfl, fun h => Option.noConfusion h⟩

/-- C4 amended: for every non-empty input text containing no brace span,
the parser returns the fixed fallback with overallScore 7, toneFeedback
"Professional and engaged", exactly one generic improvement entry, and no
corrections field (absent rather than empty). -/
theorem c4_amended : ∀ text : String, text ≠ "" → extractJsonSpan text.data = none →
    processResponse text = Except.ok fallbackAnalysis ∧
    Json.getField fallbackAnalysis "overallScore" = some (Json.num 7 0) ∧
    Json.getField fallbackAnalysis "toneFeedback"
      = some (Json.str "Professional and engaged") ∧
    Json.getField fallbackAnalysis "improvements"
      = some (Json.arr [Json.str "Consider structuring responses in a more organized way"]) ∧
    Json.getField fallbackAnalysis "corrections" = none := by
  intro text h hE
  refine ⟨?_, rfl, rfl, rfl, rfl⟩
  unfold processResponse
  rw [if_neg h, hE]

/-- C4 witness: the amended theorem applied at the concrete spanless text. -/
theorem c4_witness :
    processResponse "no json here" = Except.ok fallbackAnalysis ∧
    Json.getField fallbackAnalysis "overallScore" = some (Json.num 7 0) ∧
    Json.getField fallbackAnalysis "toneFeedback"
      = some (Json.str "Professional and engaged") ∧
    Json.getField fallbackAnalysis "improvements"
      = some (Json.arr [Json.str "Consider structuring responses in a more organized way"]) ∧
    Json.getField fallbackAnalysis "corrections" = none :=
  c4_amended "no json here" (by decide) (by rfl)

/-- C9: the history load operation on an absent blob, or on a blob that
JSON.parse rejects, yields the empty history; being a total function it
never raises and fails only by degrading to the empty history. -/
theorem c9_load_degrades :
    loadHistoryFromStorage none = Json.arr [] ∧
    ∀ s : String, jsonParse s.data = none →
      loadHistoryFromStorage (some s) = Json.arr [] := by
  refine ⟨rfl, ?_⟩
  intro s hP
  by_cases hs : s = ""
  · subst hs; rfl
  · simp only [loadHistoryFromStorage, if_neg hs, hP]

/-- C9 witness: the claim theorem applied to a concrete corrupt blob. -/
theorem c9_witness : loadHistoryFromStorage (some "not json") = Json.arr [] :=
  c9_load_degrades.2 "not json" (by rfl)

/-- C10 counterexample: the scenario "toString" is outside the four
known keys, yet contexts["toString"] finds the inherited Object.prototype
method — a truthy non-string value — so the or-operator never falls
through to the general entry and the built context differs from the one
built for the general scenario. -/
theorem c10_counterexample :
    "toString" ∉ ["interview", "social", "public", "general"] ∧
    createContext "toString" = ContextLookup.inheritedProp "toString" ∧
    createContext "toString" ≠ createContext "general" :=
  ⟨by decide, rfl, by decide⟩

/-- C10 amended: for every scenario string outside the four known keys
that also names no Object.prototype property, the context lookup is
undefined and falls back to the general entry, so the built context
equals the one built for the general scenario; scenario strings naming
inherited properties (such as "toString") instead yield the inherited
value. -/
theorem c10_unknown_scenario : ∀ scenario : String,
    scenario ∉ ["interview", "social", "public", "general"] →
    scenario ∉ objectProtoKeys →
    createContext scenario = createContext "general" := by
  intro sc h hp
  simp only [List.mem_cons, List.not_mem_nil, or_false, not_or] at h
  obtain ⟨h1, h2, h3, h4⟩ := h
  have hmiss : scenarioContexts.find? (fun p => p.1 == sc) = none := by
    rw [List.find?_eq_none]
    intro x hx
    simp only [scenarioContexts, List.mem_cons, List.not_mem_nil, or_false] at hx
    rcases hx with rfl | rfl | rfl | rfl <;>
      simp [beq_iff_eq, Ne.symm h1, Ne.symm h2, Ne.symm h3, Ne.symm h4]
  unfold createContext
  rw [hmiss]
  simp only [if_neg hp]
  rfl

/-- C10 witness: the amended theorem applied at the unknown scenario
"pirate", which names no inherited property. -/
theorem c10_witness :
    "pirate" ∉ ["interview", "social", "public", "general"] ∧
    "pirate" ∉ objectProtoKeys ∧
    createContext "pirate" = createContext "general" :=
  ⟨by decide, by decide, c10_unknown_scenario "pirate" (by decide) (by decide)⟩

/-- C2 counterexample: an input whose span decodes with overallScore 15 —
outside the claimed 1..10 range — is returned as-is rather than replaced
by the fallback: the code performs no numeric range check, only a
truthiness check (which also demands a strengths field). -/
theorem c2_counterexample :
    processResponse "score \x7b\"overallScore\":15,\"strengths\":[\"s\"],\"improvements\":[\"x\"]\x7d end"
      = Except.ok (Json.obj [("overallScore", Json.num 15 0),
          ("strengths", Json.arr [Json.str "s"]),
          ("improvements", Json.arr [Json.str "x"])]) ∧
    Json.obj [("overallScore", Json.num 15 0),
        ("strengths", Json.arr [Json.str "s"]),
        ("improvements", Json.arr [Json.str "x"])] ≠ fallbackAnalysis ∧
    ¬(1 ≤ (15 : Int) ∧ (15 : Int) ≤ 10) := by
  refine ⟨rfl, ?_, by omega⟩
  intro hEq
  simp [fallbackAnalysis] at hEq

/-- C2 amended: for every non-empty raw text whose extracted span decodes
as JSON, the parser returns the decoded object exactly when its
overallScore, strengths and improvements fields are all JavaScript-truthy
(present and not null, false, a number converting to float64 zero, or
the empty string); every other decoded span yields the fallback object.
No 1..10 range check and no numeric-type check is performed. -/
theorem c2_amended : ∀ (text : String) (span : List Char) (analysis : Json),
    text ≠ "" → extractJsonSpan text.data = some span → jsonParse span = some analysis →
    (processResponse text = Except.ok analysis ↔ requiredFieldsTruthy analysis = true) ∧
    (requiredFieldsTruthy analysis = false →
      processResponse text = Except.ok fallbackAnalysis) := by
  intro text span a h hE hP
  constructor
  · constructor
    · intro hEq
      by_cases hV : requiredFieldsTruthy a = true
      · exact hV
      · exfalso
        have hfb : processResponse text = Except.ok fallbackAnalysis := by
          simp only [processResponse, if_neg h, hE, hP, if_neg hV]
        rw [hEq] at hfb
        have ha : a = fallbackAnalysis := by injection hfb
        apply hV
        rw [ha]
        rfl
    · intro hV
      simp only [processResponse, if_neg h, hE, hP, if_pos hV]
  · intro hV
    have hV2 : ¬ requiredFieldsTruthy a = true := by
      rw [hV]
      exact Bool.false_ne_true
    simp only [processResponse, if_neg h, hE, hP, if_neg hV2]

/-- C2 witness: the amended theorem applied at a concrete valid response. -/
theorem c2_witness :
    (processResponse "\x7b\"overallScore\":2,\"strengths\":[\"a\"],\"improvements\":[\"b\"]\x7d"
      = Except.ok (Json.obj [("overallScore", Json.num 2 0),
          ("strengths", Json.arr [Json.str "a"]),
          ("improvements", Json.arr [Json.str "b"])])
    ↔ requiredFieldsTruthy (Json.obj [("overallScore", Json.num 2 0),
          ("strengths", Json.arr [Json.str "a"]),
          ("improvements", Json.arr [Json.str "b"])]) = true) ∧
    (requiredFieldsTruthy (Json.obj [("overallScore", Json.num 2 0),
          ("strengths", Json.arr [Json.str "a"]),
          ("improvements", Json.arr [Json.str "b"])]) = false →
      processResponse "\x7b\"overallScore\":2,\"strengths\":[\"a\"],\"improvements\":[\"b\"]\x7d"
        = Except.ok fallbackAnalysis) :=
  c2_amended "\x7b\"overallScore\":2,\"strengths\":[\"a\"],\"improvements\":[\"b\"]\x7d"
    (String.data "\x7b\"overallScore\":2,\"strengths\":[\"a\"],\"improvements\":[\"b\"]\x7d")
    (Json.obj [("overallScore", Json.num 2 0),
      ("strengths", Json.arr [Json.str "a"]),
      ("improvements", Json.arr [Json.str "b"])])
    (by decide) rfl rfl

set_option maxRecDepth 4000 in
/-- The number model follows the float64 zero threshold: a decimal that
underflows to zero (1e-400) is falsy under JSON.parse semantics, while
the smallest representable subnormal magnitude (5e-324) is truthy, and
null never reaches _saveSession through updateAnalysis. -/
theorem jsNumberTruthy_underflow :
    jsTruthy (some (Json.num 1 (-400))) = false ∧
    jsTruthy (some (Json.num 5 (-324))) = true ∧
    ∀ (st : AnalyticsState) (now : Nat),
      updateAnalysis st Json.null now
        = Except.error "TypeError: cannot read properties of null" := by
  refine ⟨by decide, by decide, fun st now => rfl⟩

/-- The conversation history after any sequence of appends is the suffix
of the appended entries of length at most 10. -/
theorem foldl_addToHistory_eq (es : List HistoryEntry) :
    es.foldl addToHistory [] = es.drop (es.length - 10) := by
  induction es using List.reverseRecOn with
  | nil => rfl
  | append_singleton es e ih =>
    rw [List.foldl_append, ih]
    simp only [List.foldl_cons, List.foldl_nil]
    unfold addToHistory
    by_cases hk : es.length ≤ 9
    · have h0 : es.length - 10 = 0 := by omega
      rw [h0, List.drop_zero]
      have hlen : ¬ (es ++ [e]).length > 10 := by
        simp only [List.length_append, List.length_cons, List.length_nil]; omega
      rw [if_neg hlen]
      have h1 : (es ++ [e]).length - 10 = 0 := by
        simp only [List.length_append, List.length_cons, List.length_nil]; omega
      rw [h1, List.drop_zero]
    · push_neg at hk
      have hdlen : (es.drop (es.length - 10)).length = 10 := by
        rw [List.length_drop]; omega
      have hcond : (es.drop (es.length - 10) ++ [e]).length > 10 := by
        simp only [List.length_append, List.length_cons, List.length_nil, hdlen]; omega
      rw [if_pos hcond]
      have harg : (es.drop (es.length - 10) ++ [e]).length - 10 = 1 := by
        simp only [List.length_append, List.length_cons, List.length_nil, hdlen]
      rw [harg]
      rw [List.drop_append_of_le_length (by omega : 1 ≤ (es.drop (es.length - 10)).length)]
      rw [List.drop_drop]
      rw [List.drop_append_of_le_length
        (by simp only [List.length_append, List.length_cons, List.length_nil]; omega :
          (es ++ [e]).length - 10 ≤ es.length)]
      have hix : es.length - 10 + 1 = (es ++ [e]).length - 10 := by
        simp only [List.length_append, List.length_cons, List.length_nil]; omega
      rw [hix]

/-- C8: for every sequence of appends on an initially empty conversation
context, addToHistory keeps exactly the most recent at-most-10 entries in
arrival order, so the length never exceeds 10. -/
theorem c8_context_bounded : ∀ es : List HistoryEntry,
    es.foldl addToHistory [] = es.drop (es.length - 10) ∧
    (es.foldl addToHistory []).length ≤ 10 := by
  intro es
  have h := foldl_addToHistory_eq es
  refine ⟨h, ?_⟩
  rw [h, List.length_drop]
  omega

/-- Prepending to an already-truncated list and truncating again agrees
with truncating the untruncated prepend. -/
theorem take_cons_take {α : Type} (a : α) (X : List α) (n : Nat) :
    (a :: X.take n).take n = (a :: X).take n := by
  cases n with
  | zero => simp
  | succ m =>
    rw [List.take_succ_cons, List.take_succ_cons, List.take_take]
    have : min m (m + 1) = m := by omega
    rw [this]

/-- Folding recordSession from any 20-truncated history accumulates the
stored (non-blank) records newest first and truncates to 20. -/
theorem foldl_recordSession_general : ∀ (ops : List SessionInput) (X : List StoredSession),
    ops.foldl recordSession (X.take 20) =
      ((((ops.filter fun i => !blankTranscript i).reverse).map mkStored) ++ X).take 20 := by
  intro ops
  induction ops with
  | nil => intro X; simp
  | cons i ops ih =>
    intro X
    rw [List.foldl_cons]
    by_cases hb : blankTranscript i = true
    · have hstep : recordSession (X.take 20) i = X.take 20 := by
        unfold recordSession; rw [if_pos hb]
      rw [hstep, ih X]
      simp [List.filter_cons, hb]
    · have hb2 : blankTranscript i = false := by
        cases hq : blankTranscript i
        · rfl
        · exact absurd hq hb
      have hstep : recordSession (X.take 20) i = (mkStored i :: X).take 20 := by
        unfold recordSession
        rw [if_neg hb]
        by_cases hX : 20 ≤ X.length
        · have hc : (mkStored i :: X.take 20).length > 20 := by
            simp only [List.length_cons, List.length_take]; omega
          rw [if_pos hc]
          exact take_cons_take (mkStored i) X 20
        · have hc : ¬ (mkStored i :: X.take 20).length > 20 := by
            simp only [List.length_cons, List.length_take]; omega
          rw [if_neg hc]
          rw [List.take_of_length_le (by omega : X.length ≤ 20),
            List.take_of_length_le (by simp only [List.length_cons]; omega : (mkStored i :: X).length ≤ 20)]
      rw [hstep, ih (mkStored i :: X)]
      simp [List.filter_cons, hb2, List.map_append, List.append_assoc]

/-- C7: for every sequence of session-save operations applied to an
initially empty history, the history equals the newest-first list of the
at-most-20 most recent stored (non-blank-transcript) records, each new
record prepended and the oldest dropped on overflow; hence the length
never exceeds 20. -/
theorem c7_history_bounded : ∀ ops : List SessionInput,
    ops.foldl recordSession [] =
      ((((ops.filter fun i => !blankTranscript i).reverse).map mkStored)).take 20 ∧
    (ops.foldl recordSession []).length ≤ 20 := by
  intro ops
  have h := foldl_recordSession_general ops []
  simp only [List.take_nil, List.append_nil] at h
  refine ⟨h, ?_⟩
  rw [h]
  exact List.length_take_le 20 _

/-- Reachability invariant of the app step relation: at most one
speech-path analysis is in flight, and only while the pendingAnalysis
flag is set. -/
theorem appReachable_speech_inv : ∀ s : AppState, AppReachable s →
    s.speechInFlight ≤ 1 ∧ (s.pendingAnalysis = false → s.speechInFlight = 0) := by
  intro s h
  induction h with
  | init => exact ⟨Nat.zero_le 1, fun _ => rfl⟩
  | step hr hs ih =>
    rename_i s0 _
    cases hs with
    | speechFinalAnalyze d tr hp hd ht =>
      have h0 := ih.2 hp
      constructor
      · show s0.speechInFlight + 1 ≤ 1
        omega
      · intro hfalse
        exact Bool.noConfusion hfalse
    | speechAnalysisSettles hpos =>
      constructor
      · show s0.speechInFlight - 1 ≤ 1
        have := ih.1
        omega
      · intro _
        show s0.speechInFlight - 1 = 0
        have := ih.1
        omega
    | textMessageAnalyze msg hm => exact ih
    | textAnalysisSettles hpos => exact ih

/-- C5 counterexample: a reachable state carries two concurrently
outstanding analysis requests for the session — two typed-message sends
each start an unguarded analysis (respondToMessage never consults or sets
the pendingAnalysis flag), so the at-most-one-outstanding claim fails. -/
theorem c5_counterexample :
    AppReachable { pendingAnalysis := false, speechInFlight := 0, textInFlight := 2 } ∧
    ({ pendingAnalysis := false, speechInFlight := 0, textInFlight := 2 } : AppState).speechInFlight
      + ({ pendingAnalysis := false, speechInFlight := 0, textInFlight := 2 } : AppState).textInFlight
      = 2 := by
  have htrim : jsTrim "hi" ≠ "" := by decide
  constructor
  · have h0 := AppReachable.init
    have h1 := AppReachable.step h0
      (AppStep.textMessageAnalyze ⟨false, 0, 0⟩ "hi" htrim)
    have h2 := AppReachable.step h1
      (AppStep.textMessageAnalyze ⟨false, 0, 1⟩ "hi" htrim)
    exact h2
  · rfl

/-- C5 amended: the speech-recognition-triggered analysis path alone is
guarded by the pendingAnalysis flag: in every reachable app state at most
one speech-path analysis request is outstanding. The typed-message path
carries no guard and admits concurrent requests (see the
counterexample). -/
theorem c5_amended : ∀ s : AppState, AppReachable s → s.speechInFlight ≤ 1 :=
  fun s h => (appReachable_speech_inv s h).1

/-- C5 witness: the amended theorem applied at the initial state. -/
theorem c5_witness :
    ({ pendingAnalysis := false, speechInFlight := 0, textInFlight := 0 } : AppState).speechInFlight ≤ 1 :=
  c5_amended { pendingAnalysis := false, speechInFlight := 0, textInFlight := 0 }
    AppReachable.init
